import Mathlib

/-
Verification of the file-manipulation engine of the felix terminal file manager
(source: src/state.rs). The Rust code is shallowly embedded: paths become a
structure of an absoluteness flag plus a component list, filesystem effects are
driven by an explicit environment (`Env`) that decides which filesystem actions
succeed and what directory walks return, and each engine function returns the
updated state together with the trace of attempted filesystem actions and an
`Except` result mirroring the Rust `Result`.
-/

deriving instance DecidableEq for Except

namespace Fx

/-- Model of Rust `PathBuf`: an absoluteness flag plus the list of normal
components. `PathBuf::new()` is the relative empty path. -/
structure PathBuf where
  absolute : Bool
  comps : List String
deriving DecidableEq

/-- Rust `PathBuf::new()`. -/
def PathBuf.new : PathBuf := ⟨false, []⟩

/-- Rust `Path::join` / `PathBuf::push`: joining an absolute path replaces the
receiver, mirroring Rust's semantics. -/
def PathBuf.join (p q : PathBuf) : PathBuf :=
  if q.absolute then q else ⟨p.absolute, p.comps ++ q.comps⟩

/-- Rust `Path::join` with a single plain file-name component (the common case
`dir.join(&rename)` where `rename` is a `String`). -/
def PathBuf.joinName (p : PathBuf) (n : String) : PathBuf :=
  ⟨p.absolute, p.comps ++ [n]⟩

/-- Rust `Path::parent`: `None` for the root and for the empty relative path. -/
def PathBuf.parent (p : PathBuf) : Option PathBuf :=
  match p.comps with
  | [] => none
  | _ :: _ => some ⟨p.absolute, p.comps.dropLast⟩

/-- Rust `path.iter().count()`: the root marker of an absolute path counts as one
component, as in Rust. -/
def PathBuf.iterCount (p : PathBuf) : Nat :=
  (if p.absolute then 1 else 0) + p.comps.length

/-- Rust `entry_path.iter().skip(base).collect::<PathBuf>()`. The iterator of an
absolute path yields the root marker first; collecting a list whose head is the
root marker yields an absolute path again. -/
def PathBuf.skipCollect (p : PathBuf) (base : Nat) : PathBuf :=
  match ((if p.absolute then ["/"] else []) ++ p.comps).drop base with
  | "/" :: rest => ⟨true, rest⟩
  | l => ⟨false, l⟩

/-- Rust `Path::file_name` (as a plain component). -/
def PathBuf.lastComp (p : PathBuf) : Option String :=
  p.comps.getLast?

/-- The `FileType` enum from state.rs. -/
inductive FileType where
  | Directory
  | File
  | Symlink
deriving DecidableEq

/-- The `ItemInfo` struct from state.rs. `OsString` values are modelled as `String`. -/
structure ItemInfo where
  file_type : FileType
  file_name : String
  file_path : PathBuf
  symlink_dir_path : Option PathBuf
  file_size : Nat
  file_ext : Option String
  modified : Option String
  is_hidden : Bool
  selected : Bool
deriving DecidableEq

/-- The `SortKey` enum (named `SortKey::Name` / `SortKey::Time` in state.rs). -/
inductive SortKey where
  | Name
  | Time
deriving DecidableEq

/-- The `MyError` variants reachable from state.rs. The formatted messages of
the Rust error values are elided; `unwrapPanic` stands for the
`parent().unwrap()` panic in `put_dir`, and `walkError` for a walkdir iterator
error converted by `?`. -/
inductive MyError where
  | ioError
  | fileCopyError
  | fileRemoveError
  | utf8Error
  | walkError
  | unwrapPanic
deriving DecidableEq

/-- The `RenamedFile` struct from state.rs. -/
structure RenamedFile where
  original_name : PathBuf
  new_name : PathBuf
deriving DecidableEq

/-- The `PutFiles` struct from state.rs. -/
structure PutFiles where
  original : List ItemInfo
  put : List PathBuf
  dir : PathBuf
deriving DecidableEq

/-- The `DeletedFiles` struct from state.rs. -/
structure DeletedFiles where
  trash : List PathBuf
  original : List ItemInfo
  dir : PathBuf
deriving DecidableEq

/-- The `ManipKind` enum from state.rs. -/
inductive ManipKind where
  | Delete (d : DeletedFiles)
  | Put (p : PutFiles)
  | Rename (r : RenamedFile)
deriving DecidableEq

/-- The `Manipulation` struct from state.rs. -/
structure Manipulation where
  count : Nat
  manip_list : List ManipKind
deriving DecidableEq

/-- The engine-relevant fields of `State` from state.rs (layout, colors,
command map and similar rendering/config fields do not affect the claims and
are omitted). -/
structure State where
  list : List ItemInfo
  registered : List ItemInfo
  manipulations : Manipulation
  current_dir : PathBuf
  trash_dir : PathBuf
deriving DecidableEq

/-- One attempted filesystem action of the engine. -/
inductive FsAction where
  | copy (src dst : PathBuf)
  | removeFile (p : PathBuf)
  | rmCmd (p : PathBuf)
  | createDir (p : PathBuf)
  | createDirAll (p : PathBuf)
  | removeDirAll (p : PathBuf)
deriving DecidableEq

/-- One entry yielded by a `walkdir::WalkDir` iteration: whether the iterator
yielded `Ok`, the entry's path, whether its file type is a directory, and
whether its file name converts to UTF-8. -/
structure WalkEntry where
  ok : Bool
  path : PathBuf
  isDir : Bool
  utf8 : Bool
deriving DecidableEq

/-- The file type reported by `fs::symlink_metadata`. -/
inductive RawType where
  | dir
  | file
  | symlink
  | other
deriving DecidableEq

/-- The parts of `fs::Metadata` read by `make_item` (`modified` is the already
formatted RFC3339 string; the code unwraps the modified time, so it is total
here). -/
structure Meta where
  modified : String
  raw : RawType
  len : Nat
deriving DecidableEq

/-- One entry of `fs::read_dir` as consumed by `make_item`: the OS file name
and whether it is valid UTF-8, the entry path, the `symlink_metadata` result
(`metaData`),
and (for symlinks) the follow-the-link `fs::metadata().is_dir()` and
`fs::canonicalize` results. -/
structure RawEntry where
  nameOs : String
  utf8Ok : Bool
  path : PathBuf
  metaData : Option Meta
  followIsDir : Option Bool
  canonical : Option PathBuf
deriving DecidableEq

/-- The filesystem environment a run executes against: which paths exist,
which attempted actions succeed, what a recursive walk of a root returns, and
what `fs::read_dir` returns (`none` = enumeration fails; a `none` element = the
per-entry iterator step fails). -/
structure Env where
  pathExists : PathBuf → Bool
  act : FsAction → Bool
  walk : PathBuf → List WalkEntry
  readDir : PathBuf → Option (List (Option RawEntry))

/-- Index of the last `'.'` in a component's characters, if any. -/
def lastDotIdx (cs : List Char) : Option Nat :=
  (List.range cs.length).foldl
    (fun acc i => if cs.get? i = some '.' then some i else acc) none

/-- Rust `Path::extension` on one file-name component: the portion after the
final dot, unless there is no dot or the only dot starts the name. -/
def rustExtension (name : String) : Option String :=
  let cs := name.toList
  match lastDotIdx cs with
  | none => none
  | some i => if i = 0 then none else some ⟨cs.drop (i + 1)⟩

/-- Rust `path.extension()` in terms of the final component. -/
def pathExtension (p : PathBuf) : Option String :=
  match p.lastComp with
  | none => none
  | some n => rustExtension n

/-- The function `make_item` from state.rs: builds an `ItemInfo` from one directory entry;
a failed `symlink_metadata` read degrades the item instead of failing. -/
def make_item (e : RawEntry) : ItemInfo :=
  let name := if e.utf8Ok then e.nameOs else "Invalid unicode name"
  let hidden := decide (name.toList.head? = some '.')
  let ext := pathExtension e.path
  match e.metaData with
  | some m =>
    let time := some m.modified
    let filetype :=
      match m.raw with
      | .dir => FileType.Directory
      | .file => FileType.File
      | .symlink => FileType.Symlink
      | .other => FileType.File
    let sym_dir_path :=
      if filetype = FileType.Symlink then
        match e.followIsDir with
        | some true => e.canonical
        | _ => none
      else none
    { file_type := filetype, file_name := name, file_path := e.path,
      symlink_dir_path := sym_dir_path, file_size := m.len, file_ext := ext,
      modified := time, selected := false, is_hidden := hidden }
  | none =>
    { file_type := FileType.File, file_name := name, file_path := e.path,
      symlink_dir_path := none, file_size := 0, file_ext := ext,
      modified := none, selected := false, is_hidden := false }

/-- Numeric value of a digit run. -/
def digitsVal (cs : List Char) : Nat :=
  cs.foldl (fun acc c => acc * 10 + (c.toNat - 48)) 0

/-- Fueled worker for the natural-order comparison. -/
def natCmpGo : Nat → List Char → List Char → Ordering
  | 0, _, _ => .eq
  | _ + 1, [], [] => .eq
  | _ + 1, [], _ :: _ => .lt
  | _ + 1, _ :: _, [] => .gt
  | fuel + 1, x :: xs, y :: ys =>
    if x.isDigit && y.isDigit then
      let dxs := (x :: xs).takeWhile Char.isDigit
      let rxs := (x :: xs).dropWhile Char.isDigit
      let dys := (y :: ys).takeWhile Char.isDigit
      let rys := (y :: ys).dropWhile Char.isDigit
      match compare (digitsVal dxs) (digitsVal dys) with
      | .eq => natCmpGo fuel rxs rys
      | o => o
    else
      match compare x y with
      | .eq => natCmpGo fuel xs ys
      | o => o

/-- Natural (digit-aware) ordering, modelling the `natord::compare` dependency
used by `push_items` for the `Name` sort key: maximal digit runs are compared
numerically, other characters by code point. Each step consumes at least one
character from each side, so the fuel never runs out. No theorem below depends
on the internals of this comparison. -/
def natCompare (a b : String) : Ordering :=
  natCmpGo (a.length + b.length + 1) a.toList b.toList

/-- Rust's derived `Ord` on `Option<String>`: `None` is smaller than any
`Some`. -/
def cmpOptStr : Option String → Option String → Ordering
  | none, none => .eq
  | none, some _ => .lt
  | some _, none => .gt
  | some a, some b => compare a b

/-- The `sort_by` comparator of `push_items` for each key, rendered as the
`le` predicate of a stable merge sort (Rust's `sort_by` is a stable sort by the
comparator; `le a b` holds when the comparator does not answer `Greater`).
For `Time` the code compares `b.modified` against `a.modified`, i.e. descending
with `None` (treated as oldest) last. -/
def itemLe (key : SortKey) (a b : ItemInfo) : Bool :=
  match key with
  | .Name => !(natCompare a.file_name b.file_name == .gt)
  | .Time => !(cmpOptStr b.modified a.modified == .gt)

/-- Insert an element into a sorted list, after any element it is not
`le`-below (keeping insertion stable). -/
def insertSorted {α : Type} (le : α → α → Bool) (a : α) : List α → List α
  | [] => [a]
  | b :: l => if le a b then a :: b :: l else b :: insertSorted le a l

/-- Stable sort by a boolean `le`. Rust's `Vec::sort_by` is a stable sort by
the comparator; stable sorts by the same total comparator agree, so this
structural insertion sort models it faithfully (and evaluates inside the
kernel, unlike a well-founded merge sort). -/
def stableSort {α : Type} (le : α → α → Bool) : List α → List α
  | [] => []
  | a :: l => insertSorted le a (stableSort le l)

/-- Collect the entries of a `read_dir` run, failing if any iterator step
failed (the `entry?` inside the loop of `push_items`). -/
def collectEntries : List (Option RawEntry) → Option (List RawEntry)
  | [] => some []
  | none :: _ => none
  | some e :: rest => (collectEntries rest).map (e :: ·)

/-- The function `push_items` from state.rs: list a directory, split directories from files
and symlinks (in entry order), sort both halves by the sort key, concatenate
directories first, and drop hidden items afterwards when `show_hidden` is
off. -/
def push_items (env : Env) (p : PathBuf) (key : SortKey) (show_hidden : Bool) :
    Except MyError (List ItemInfo) :=
  match env.readDir p with
  | none => .error .ioError
  | some raw =>
    match collectEntries raw with
    | none => .error .ioError
    | some entries =>
      let items := entries.map make_item
      let pr := items.partition (fun i => i.file_type == FileType.Directory)
      let dir_v := stableSort (itemLe key) pr.1
      let file_v := stableSort (itemLe key) pr.2
      let result := dir_v ++ file_v
      .ok (if show_hidden then result else result.filter (fun x => !x.is_hidden))

/-- Fueled search for the first disambiguated candidate absent from the set.
The fuel (strictly more than the set's size) always suffices, because the
candidates are pairwise distinct. -/
def resolveGo (name : String) (set : List String) : Nat → Nat → String
  | 0, k => name ++ "_" ++ toString k
  | fuel + 1, k =>
    let cand := name ++ "_" ++ toString k
    if cand ∈ set then resolveGo name set fuel (k + 1) else cand

/-- Modelled from the spec: the collision-resolution helpers `rename_file` and
`rename_dir` (defined in functions.rs, which is outside src/). Per the spec,
"if the candidate name is absent from the set, use it unchanged; otherwise
append/increment a numeric disambiguator until the name is absent from the
set (policy shared across files and directories)". -/
def resolveName (name : String) (set : List String) : String :=
  if name ∈ set then resolveGo name set (set.length + 1) 1 else name

/-- Modelled from the spec: `rename_file` applied to an item's name. -/
def rename_file (item : ItemInfo) (set : List String) : String :=
  resolveName item.file_name set

/-- Modelled from the spec: `rename_dir`, same policy as `rename_file`. -/
def rename_dir (item : ItemInfo) (set : List String) : String :=
  resolveName item.file_name set

/-- Rust `file_name.chars().skip(11).collect::<String>()`: drop the fixed-length
timestamp prefix (ten epoch-second digits plus one separator). -/
def strip11 (s : String) : String :=
  ⟨s.toList.drop 11⟩

/-- The function `put_file` from state.rs. The `HashSet<String>` of destination names is
modelled as a list (membership only); the updated set is returned alongside
the `Result`, mirroring the in-place mutation. -/
def put_file (env : Env) (s : State) (item : ItemInfo) (target_dir : Option PathBuf)
    (name_set : List String) : List String × Except MyError PathBuf :=
  match target_dir with
  | none =>
    if item.file_path.parent = some s.trash_dir then
      let item' := { item with file_name := strip11 item.file_name }
      let rename := rename_file item' name_set
      let dst := s.current_dir.joinName rename
      if env.act (.copy item'.file_path dst) then (rename :: name_set, .ok dst)
      else (name_set, .error .fileCopyError)
    else
      let rename := rename_file item name_set
      let dst := s.current_dir.joinName rename
      if env.act (.copy item.file_path dst) then (rename :: name_set, .ok dst)
      else (name_set, .error .fileCopyError)
  | some path =>
    if item.file_path.parent = some s.trash_dir then
      let item' := { item with file_name := strip11 item.file_name }
      let rename := rename_file item' name_set
      let dst := path.joinName rename
      if env.act (.copy item'.file_path dst) then (rename :: name_set, .ok dst)
      else (name_set, .error .fileCopyError)
    else
      let rename := rename_file item name_set
      let dst := path.joinName rename
      if env.act (.copy item.file_path dst) then (rename :: name_set, .ok dst)
      else (name_set, .error .fileCopyError)

/-- The body of `put_dir`'s walk loop for the entries after the root: rebase
the entry under `target` by dropping `base` leading iterator components,
recreate directories, lazily create a missing source parent, and copy file
contents (a failed copy aborts with a copy error). -/
def putDirChildren (env : Env) (target : PathBuf) (base : Nat) :
    List WalkEntry → Except MyError Unit
  | [] => .ok ()
  | e :: rest =>
    if !e.ok then .error .walkError
    else
      let child := target.join (e.path.skipCollect base)
      if e.isDir then
        if env.act (.createDirAll child) then putDirChildren env target base rest
        else .error .ioError
      else
        match e.path.parent with
        | some par =>
          if !env.pathExists par then
            if env.act (.createDir par) then
              if env.act (.copy e.path child) then putDirChildren env target base rest
              else .error .fileCopyError
            else .error .ioError
          else
            if env.act (.copy e.path child) then putDirChildren env target base rest
            else .error .fileCopyError
        | none =>
          if env.act (.copy e.path child) then putDirChildren env target base rest
          else .error .fileCopyError

/-- The function `put_dir` from state.rs. The first walk entry (the root) fixes `base` and
the destination `target`; for a trash-origin source the stored name is
stripped of its timestamp prefix and — exactly as in the code — `target` is
built from the stripped name while the disambiguated `rename_dir` result is
only inserted into the name set. An empty walk leaves `target` as
`PathBuf::new()`. The `unwrap` of the source's parent is modelled as the
`unwrapPanic` error. -/
def put_dir (env : Env) (s : State) (buf : ItemInfo) (target_dir : Option PathBuf)
    (name_set : List String) : List String × Except MyError PathBuf :=
  match env.walk buf.file_path with
  | [] => (name_set, .ok PathBuf.new)
  | e0 :: rest =>
    if !e0.ok then (name_set, .error .walkError)
    else
      let base := e0.path.iterCount
      match buf.file_path.parent with
      | none => (name_set, .error .unwrapPanic)
      | some parent =>
        if parent = s.trash_dir then
          let stripped := strip11 buf.file_name
          let buf' := { buf with file_name := stripped }
          let target :=
            match target_dir with
            | none => s.current_dir.joinName stripped
            | some path => path.joinName stripped
          let rename := rename_dir buf' name_set
          let set' := rename :: name_set
          if env.act (.createDir target) then
            match putDirChildren env target base rest with
            | .ok _ => (set', .ok target)
            | .error e => (set', .error e)
          else (set', .error .ioError)
        else
          let rename := rename_dir buf name_set
          let target :=
            match target_dir with
            | none => s.current_dir.joinName rename
            | some path => path.joinName rename
          let set' := rename :: name_set
          if env.act (.createDir target) then
            match putDirChildren env target base rest with
            | .ok _ => (set', .ok target)
            | .error e => (set', .error e)
          else (set', .error .ioError)

/-- The target loop of `put_items`: `if let Ok(p) = ... { put_v.push(p) }` —
a failed `put_file`/`put_dir` is silently skipped while the (possibly already
mutated) name set is kept. Returns the produced paths in order plus the final
name set. -/
def putLoop (env : Env) (s : State) (target_dir : Option PathBuf) :
    List ItemInfo → List String → List PathBuf → List PathBuf × List String
  | [], set, acc => (acc.reverse, set)
  | item :: rest, set, acc =>
    match item.file_type with
    | .Directory =>
      match put_dir env s item target_dir set with
      | (set', .ok p) => putLoop env s target_dir rest set' (p :: acc)
      | (set', .error _) => putLoop env s target_dir rest set' acc
    | _ =>
      match put_file env s item target_dir set with
      | (set', .ok p) => putLoop env s target_dir rest set' (p :: acc)
      | (set', .error _) => putLoop env s target_dir rest set' acc

/-- Rust `Vec::pop` applied `n` times (dropping up to `n` trailing elements). -/
def popN {α : Type} : List α → Nat → List α
  | l, 0 => l
  | l, n + 1 => popN l.dropLast n

/-- The function `branch_manip` from state.rs: discard the undone (redoable) tail when a
new manipulation is pushed. -/
def branch_manip (s : State) : State :=
  if s.manipulations.count = 0 then s
  else
    { s with manipulations :=
        { s.manipulations with
          manip_list := popN s.manipulations.manip_list s.manipulations.count } }

/-- The function `put_items` from state.rs: build the destination name set (from the loaded
listing when pasting into the current directory, else from a fresh listing of
the explicit destination), run the target loop, and append a `Put` record —
after `branch_manip` — only when no explicit destination was given. -/
def put_items (env : Env) (s : State) (targets : List ItemInfo)
    (target_dir : Option PathBuf) : Except MyError State :=
  let nameSet0 : Except MyError (List String) :=
    match target_dir with
    | none => .ok (s.list.map (·.file_name))
    | some path =>
      match push_items env path .Name true with
      | .ok items => .ok (items.map (·.file_name))
      | .error e => .error e
  match nameSet0 with
  | .error e => .error e
  | .ok set0 =>
    let pr := putLoop env s target_dir targets set0 []
    if target_dir.isNone then
      let s' := branch_manip s
      .ok { s' with manipulations :=
              { count := 0,
                manip_list := s'.manipulations.manip_list ++
                  [ManipKind.Put { original := targets, put := pr.1, dir := s.current_dir }] } }
    else .ok s

/-- The function `push_to_registered` from state.rs: append the item to the clipboard with
its path and name replaced by the trash location and `selected` reset. -/
def push_to_registered (s : State) (item : ItemInfo) (file_path : PathBuf)
    (file_name : String) : State :=
  { s with registered := s.registered ++
      [{ item with file_path := file_path, file_name := file_name, selected := false }] }

/-- The function `remove_and_yank_file` from state.rs. A symlink whose target no longer
exists is handed to the `rm` command (whose `status()` call fails only if
spawning fails, modelled by the `rmCmd` action) and yields the empty path.
Otherwise the trash copy happens only under `new_manip`; the returned path is
`PathBuf::new()` when `new_manip` is false, since `to` keeps its initial
value. -/
def remove_and_yank_file (env : Env) (now : String) (s : State) (item : ItemInfo)
    (new_manip : Bool) : State × List FsAction × Except MyError PathBuf :=
  let src := item.file_path
  if item.file_type == FileType.Symlink && !env.pathExists src then
    if env.act (.rmCmd src) then (s, [.rmCmd src], .ok PathBuf.new)
    else (s, [.rmCmd src], .error .ioError)
  else
    let rename := now ++ "_" ++ item.file_name
    if new_manip then
      let dst := s.trash_dir.joinName rename
      if !env.act (.copy src dst) then (s, [.copy src dst], .error .fileCopyError)
      else
        let s' := push_to_registered s item dst rename
        if !env.act (.removeFile src) then
          (s', [.copy src dst, .removeFile src], .error .fileRemoveError)
        else (s', [.copy src dst, .removeFile src], .ok dst)
    else
      if !env.act (.removeFile src) then (s, [.removeFile src], .error .fileRemoveError)
      else (s, [.removeFile src], .ok PathBuf.new)

/-- The body of `remove_and_yank_dir`'s walk loop for the entries after the
root: rebase each entry under the trash root, recreate directories, lazily
create a missing source parent, copy file contents. -/
def rayDirChildren (env : Env) (trash_path : PathBuf) (base : Nat) :
    List WalkEntry → List FsAction × Except MyError Unit
  | [] => ([], .ok ())
  | e :: rest =>
    if !e.ok then ([], .error .walkError)
    else
      let target := trash_path.join (e.path.skipCollect base)
      if e.isDir then
        if env.act (.createDirAll target) then
          match rayDirChildren env trash_path base rest with
          | (tr, r) => (.createDirAll target :: tr, r)
        else ([.createDirAll target], .error .ioError)
      else
        match e.path.parent with
        | some par =>
          if !env.pathExists par then
            if env.act (.createDir par) then
              if env.act (.copy e.path target) then
                match rayDirChildren env trash_path base rest with
                | (tr, r) => (.createDir par :: .copy e.path target :: tr, r)
              else ([.createDir par, .copy e.path target], .error .fileCopyError)
            else ([.createDir par], .error .ioError)
          else
            if env.act (.copy e.path target) then
              match rayDirChildren env trash_path base rest with
              | (tr, r) => (.copy e.path target :: tr, r)
            else ([.copy e.path target], .error .fileCopyError)
        | none =>
          if env.act (.copy e.path target) then
            match rayDirChildren env trash_path base rest with
            | (tr, r) => (.copy e.path target :: tr, r)
          else ([.copy e.path target], .error .fileCopyError)

/-- The function `remove_and_yank_dir` from state.rs. Under `new_manip` the walk's first
entry (the root) fixes `base`, the trash name `<now>_<rootName>` and the trash
root (created via `trash_dir.join(&trash_path)`, which equals `trash_path`
because joining an absolute path replaces the receiver); the children are then
mirrored below it and the clipboard entry pushed before the source subtree is
recursively removed. Without `new_manip` the walk is skipped entirely and the
returned trash path stays `PathBuf::new()`. An empty walk also leaves the
initial empty trash name and path in place. -/
def remove_and_yank_dir (env : Env) (now : String) (s : State) (item : ItemInfo)
    (new_manip : Bool) : State × List FsAction × Except MyError PathBuf :=
  if new_manip then
    match env.walk item.file_path with
    | [] =>
      let s' := push_to_registered s item PathBuf.new ""
      if env.act (.removeDirAll item.file_path) then
        (s', [.removeDirAll item.file_path], .ok PathBuf.new)
      else (s', [.removeDirAll item.file_path], .error .fileRemoveError)
    | e0 :: rest =>
      if !e0.ok then (s, [], .error .walkError)
      else
        let base := e0.path.iterCount
        if !e0.utf8 then (s, [], .error .utf8Error)
        else
          let trash_name := now ++ "_" ++ (e0.path.lastComp.getD "")
          let trash_path := s.trash_dir.joinName trash_name
          let mk := s.trash_dir.join trash_path
          if !env.act (.createDir mk) then (s, [.createDir mk], .error .ioError)
          else
            match rayDirChildren env trash_path base rest with
            | (tr, .error e) => (s, .createDir mk :: tr, .error e)
            | (tr, .ok _) =>
              let s' := push_to_registered s item trash_path trash_name
              if env.act (.removeDirAll item.file_path) then
                (s', .createDir mk :: tr ++ [.removeDirAll item.file_path], .ok trash_path)
              else
                (s', .createDir mk :: tr ++ [.removeDirAll item.file_path],
                 .error .fileRemoveError)
  else
    if env.act (.removeDirAll item.file_path) then
      (s, [.removeDirAll item.file_path], .ok PathBuf.new)
    else (s, [.removeDirAll item.file_path], .error .fileRemoveError)

/-- The batch loop of `remove_and_yank`: process the targets in order,
dispatching on the file type, collecting the returned trash paths, and
aborting on the first error. -/
def rayLoop (env : Env) (now : String) (new_manip : Bool) :
    State → List ItemInfo → State × List FsAction × Except MyError (List PathBuf)
  | s, [] => (s, [], .ok [])
  | s, item :: rest =>
    let r :=
      match item.file_type with
      | .Directory => remove_and_yank_dir env now s item new_manip
      | _ => remove_and_yank_file env now s item new_manip
    match r with
    | (s', tr, .error e) => (s', tr, .error e)
    | (s', tr, .ok p) =>
      match rayLoop env now new_manip s' rest with
      | (s'', tr', .error e) => (s'', tr ++ tr', .error e)
      | (s'', tr', .ok ps) => (s'', tr ++ tr', .ok (p :: ps))

/-- The function `remove_and_yank` from state.rs: clear the clipboard, process the targets
in order, and — only under `new_manip` — append one `Delete` record (after
`branch_manip`) holding the trash paths, the target snapshots and the current
directory, and reset the undo count. -/
def remove_and_yank (env : Env) (now : String) (s : State) (targets : List ItemInfo)
    (new_manip : Bool) : State × List FsAction × Except MyError Unit :=
  let s0 := { s with registered := [] }
  match rayLoop env now new_manip s0 targets with
  | (s', tr, .error e) => (s', tr, .error e)
  | (s', tr, .ok trash_vec) =>
    if new_manip then
      let s'' := branch_manip s'
      ({ s'' with manipulations :=
           { count := 0,
             manip_list := s''.manipulations.manip_list ++
               [ManipKind.Delete
                  { trash := trash_vec, original := targets, dir := s'.current_dir }] } },
       tr, .ok ())
    else (s', tr, .ok ())

/-- The function `yank_item` from state.rs: replace the clipboard with the selected items,
or with the single item at `index` (`none` models the `unwrap` panic on a bad
index). -/
def yank_item (s : State) (index : Nat) (selected : Bool) : Option State :=
  if selected then
    some { s with registered := s.list.filter (·.selected) }
  else
    match s.list.get? index with
    | some item => some { s with registered := [item] }
    | none => none

/-- The directory listing as the spec describes it: partition into a
directories sub-list and a files-or-symlinks sub-list, sort each sub-list
independently by the sort key, concatenate directories first, and apply the
hidden filter after sorting. Used to compare `push_items` against the spec's
wording. -/
def listSpec (env : Env) (p : PathBuf) (key : SortKey) (show_hidden : Bool) :
    Option (List ItemInfo) :=
  match env.readDir p with
  | none => none
  | some raw =>
    match collectEntries raw with
    | none => none
    | some entries =>
      let items := entries.map make_item
      let dirs := items.filter (fun i => i.file_type == FileType.Directory)
      let rest := items.filter
        (fun i => i.file_type == FileType.File || i.file_type == FileType.Symlink)
      let sorted := stableSort (itemLe key) dirs ++ stableSort (itemLe key) rest
      some (if show_hidden then sorted else sorted.filter (fun x => !x.is_hidden))

/-- Whether a filesystem action is a content copy. -/
def isCopy : FsAction → Bool
  | .copy _ _ => true
  | _ => false

/-- The clipboard entry a logged delete pushes for one target (`none` for a
broken symlink, which is unlinked without a clipboard entry). Mirrors the
`push_to_registered` calls of `remove_and_yank_file` / `remove_and_yank_dir`
under `new_manip`. -/
def regEntry (env : Env) (now : String) (trash : PathBuf) (item : ItemInfo) :
    Option ItemInfo :=
  match item.file_type with
  | .Directory =>
    match env.walk item.file_path with
    | [] => some { item with file_path := PathBuf.new, file_name := "", selected := false }
    | e0 :: _ =>
      some { item with
             file_path := trash.joinName (now ++ "_" ++ e0.path.lastComp.getD ""),
             file_name := now ++ "_" ++ e0.path.lastComp.getD "", selected := false }
  | _ =>
    if item.file_type == FileType.Symlink && !env.pathExists item.file_path then none
    else some { item with
                file_path := trash.joinName (now ++ "_" ++ item.file_name),
                file_name := now ++ "_" ++ item.file_name, selected := false }

/-- The trash path a successful logged delete returns for one target: the
empty path for a broken symlink, else the timestamp-named entry under the
trash directory (for a directory, named after the walk root). -/
def trashPathOf (env : Env) (now : String) (trash : PathBuf) (item : ItemInfo) :
    PathBuf :=
  match item.file_type with
  | .Directory =>
    match env.walk item.file_path with
    | [] => PathBuf.new
    | e0 :: _ => trash.joinName (now ++ "_" ++ e0.path.lastComp.getD "")
  | _ =>
    if item.file_type == FileType.Symlink && !env.pathExists item.file_path then PathBuf.new
    else trash.joinName (now ++ "_" ++ item.file_name)

/-- Concrete fixtures used by the witnesses and counterexamples below. -/
def destDir : PathBuf := ⟨true, ["home", "dest"]⟩

/-- The trash directory of the fixtures. -/
def trashDir : PathBuf := ⟨true, ["home", "trash"]⟩

/-- A baseline state: empty listing and clipboard, empty log. -/
def st0 : State :=
  { list := [], registered := [], manipulations := { count := 0, manip_list := [] },
    current_dir := destDir, trash_dir := trashDir }

/-- An environment where every filesystem operation succeeds, every path
exists, walks are empty and directories list as empty. -/
def envAll : Env :=
  { pathExists := fun _ => true, act := fun _ => true,
    walk := fun _ => [], readDir := fun _ => some [] }

/-- An ordinary file item at /home/work/a.txt. -/
def itemA : ItemInfo :=
  { file_type := .File, file_name := "a.txt", file_path := ⟨true, ["home", "work", "a.txt"]⟩,
    symlink_dir_path := none, file_size := 3, file_ext := some "txt",
    modified := none, is_hidden := false, selected := false }

/-- An ordinary file item at /home/work/b.txt. -/
def itemB : ItemInfo :=
  { file_type := .File, file_name := "b.txt", file_path := ⟨true, ["home", "work", "b.txt"]⟩,
    symlink_dir_path := none, file_size := 4, file_ext := some "txt",
    modified := none, is_hidden := false, selected := false }

/-- A symlink item at /home/work/ln whose target does not resolve (in
`envBroken`). -/
def linkBroken : ItemInfo :=
  { file_type := .Symlink, file_name := "ln", file_path := ⟨true, ["home", "work", "ln"]⟩,
    symlink_dir_path := none, file_size := 0, file_ext := none,
    modified := none, is_hidden := false, selected := false }

/-- Everything succeeds, but /home/work/ln does not exist (a dangling
symlink). -/
def envBroken : Env :=
  { pathExists := fun p => !(p == (⟨true, ["home", "work", "ln"]⟩ : PathBuf)),
    act := fun _ => true, walk := fun _ => [], readDir := fun _ => some [] }

/-- Everything succeeds except copying /home/work/a.txt (anywhere). -/
def envCopyAFails : Env :=
  { pathExists := fun _ => true,
    act := fun a =>
      match a with
      | .copy src _ => !(src == (⟨true, ["home", "work", "a.txt"]⟩ : PathBuf))
      | _ => true,
    walk := fun _ => [], readDir := fun _ => some [] }

/-- A trash-origin directory item: the trashed directory
/home/trash/1700000000_x (stored name carries the timestamp prefix). -/
def dirTrashItem : ItemInfo :=
  { file_type := .Directory, file_name := "1700000000_x",
    file_path := ⟨true, ["home", "trash", "1700000000_x"]⟩,
    symlink_dir_path := none, file_size := 0, file_ext := none,
    modified := none, is_hidden := false, selected := false }

/-- Environment for restoring `dirTrashItem`: its walk holds just the root
entry; all operations succeed. -/
def envDirTrash : Env :=
  { pathExists := fun _ => true, act := fun _ => true,
    walk := fun p =>
      if p == (⟨true, ["home", "trash", "1700000000_x"]⟩ : PathBuf) then
        [{ ok := true, path := ⟨true, ["home", "trash", "1700000000_x"]⟩,
           isDir := true, utf8 := true }]
      else [],
    readDir := fun _ => some [] }

/-- A selected copy of `itemA` (as produced by visual-mode selection). -/
def itemSel : ItemInfo :=
  { itemA with selected := true }

/-- A state whose listing holds the selected item. -/
def stSel : State :=
  { st0 with list := [itemSel] }

/-- The clipboard entry the logged delete of `itemSel` produces. -/
def itemSelTrashed : ItemInfo :=
  { itemSel with
    file_path := trashDir.joinName "1700000000_a.txt",
    file_name := "1700000000_a.txt", selected := false }

/-- A trash-origin file item with the stored name 1700000000_report.txt. -/
def reportTrashItem : ItemInfo :=
  { file_type := .File, file_name := "1700000000_report.txt",
    file_path := ⟨true, ["home", "trash", "1700000000_report.txt"]⟩,
    symlink_dir_path := none, file_size := 7, file_ext := some "txt",
    modified := none, is_hidden := false, selected := false }

/-- A dot-named directory entry whose metadata read failed. -/
def dotRaw : RawEntry :=
  { nameOs := ".config", utf8Ok := true, path := ⟨true, ["home", "work", ".config"]⟩,
    metaData := none, followIsDir := none, canonical := none }

/-- A directory entry named sub with readable metadata. -/
def rawSub : RawEntry :=
  { nameOs := "sub", utf8Ok := true, path := ⟨true, ["home", "work", "sub"]⟩,
    metaData := some { modified := "2024", raw := .dir, len := 0 },
    followIsDir := none, canonical := none }

/-- A file entry named b.txt with readable metadata. -/
def rawB : RawEntry :=
  { nameOs := "b.txt", utf8Ok := true, path := ⟨true, ["home", "work", "b.txt"]⟩,
    metaData := some { modified := "2023", raw := .file, len := 4 },
    followIsDir := none, canonical := none }

/-- A hidden directory entry named .git with readable metadata. -/
def rawHid : RawEntry :=
  { nameOs := ".git", utf8Ok := true, path := ⟨true, ["home", "work", ".git"]⟩,
    metaData := some { modified := "2022", raw := .dir, len := 0 },
    followIsDir := none, canonical := none }

/-- An environment whose /home/work listing yields b.txt, sub and .git. -/
def envList : Env :=
  { pathExists := fun _ => true, act := fun _ => true, walk := fun _ => [],
    readDir := fun p =>
      if p == (⟨true, ["home", "work"]⟩ : PathBuf) then
        some [some rawB, some rawSub, some rawHid]
      else some [] }

/-- The item `make_item` builds from `rawSub`. -/
def itemSub : ItemInfo :=
  { file_type := .Directory, file_name := "sub", file_path := ⟨true, ["home", "work", "sub"]⟩,
    symlink_dir_path := none, file_size := 0, file_ext := none,
    modified := some "2024", is_hidden := false, selected := false }

/-- The item `make_item` builds from `rawB`. -/
def itemBList : ItemInfo :=
  { file_type := .File, file_name := "b.txt", file_path := ⟨true, ["home", "work", "b.txt"]⟩,
    symlink_dir_path := none, file_size := 4, file_ext := some "txt",
    modified := some "2023", is_hidden := false, selected := false }

/-- A state with one undone record available for redo: the undo count is 1 and
the log holds two records. -/
def stUndone : State :=
  { st0 with manipulations :=
      { count := 1,
        manip_list :=
          [ManipKind.Rename { original_name := ⟨true, ["home", "work", "p"]⟩,
                              new_name := ⟨true, ["home", "work", "q"]⟩ },
           ManipKind.Rename { original_name := ⟨true, ["home", "work", "r"]⟩,
                              new_name := ⟨true, ["home", "work", "t"]⟩ }] } }

/-- C1: the claim states that a copy failure inside `put_file` or `put_dir`
aborts `put_items` and is returned verbatim to the caller. In the code the
`if let Ok(p) = ...` pattern silently drops the error: with the copy of
/home/work/a.txt failing (second conjunct), the batch continues with b.txt and
`put_items` returns `Ok`, logging a `Put` record that contains only the second
produced path — no error reaches the caller. -/
theorem putItemsSwallowsCopyFailure :
    put_items envCopyAFails st0 [itemA, itemB] none =
      .ok { st0 with manipulations :=
              { count := 0,
                manip_list := [ManipKind.Put
                  { original := [itemA, itemB],
                    put := [⟨true, ["home", "dest", "b.txt"]⟩],
                    dir := destDir }] } }
    ∧ envCopyAFails.act (.copy itemA.file_path (destDir.joinName "a.txt")) = false := by
  decide

/-- C4: restoring the trash-origin directory 1700000000_x into a destination
whose name set already holds "x": the code creates the entry under the
colliding stripped name "x" (the produced path is /home/dest/x) while
inserting the disambiguated "x_1" into the set without ever using it for the
created entry — contradicting the claim that the disambiguated name is the
name actually used, as it is for files. -/
theorem putDirTrashOriginCollision :
    put_dir envDirTrash st0 dirTrashItem none ["x"] =
      (["x_1", "x"], .ok ⟨true, ["home", "dest", "x"]⟩)
    ∧ "x" ∈ ["x"] ∧ ("x_1" : String) ∉ ["x"] := by
  decide

/-- C6: a dot-named entry whose metadata read failed is degraded
(size 0, no modified time, kind File) but its `is_hidden` flag is hard-coded
to `false` in the degraded branch of `make_item`, although its name starts
with a dot — contradicting the claim that hidden is true iff the name starts
with a dot, including for degraded entries. -/
theorem makeItemDegradedDotfileNotHidden :
    (make_item dotRaw).file_name = ".config"
    ∧ (make_item dotRaw).file_name.toList.head? = some '.'
    ∧ (make_item dotRaw).is_hidden = false
    ∧ (make_item dotRaw).file_size = 0
    ∧ (make_item dotRaw).modified = none
    ∧ (make_item dotRaw).file_type = FileType.File := by
  decide

/-- C2 counterexample: deleting the ordinary file a.txt with the logging flag
off performs exactly one filesystem action — removing the source — and no
copy-to-trash at all, refuting the claim that the copy-to-trash step happens
on every call independent of the logging flag. -/
theorem removeYankFileUnloggedSkipsTrashCopy :
    remove_and_yank_file envAll "1700000000" st0 itemA false =
      (st0, [FsAction.removeFile itemA.file_path], .ok PathBuf.new)
    ∧ ([FsAction.removeFile itemA.file_path].all fun a => !isCopy a) = true := by
  decide

/-- C3 counterexample: with the logging flag off the clipboard ends up empty
(merely cleared, no snapshots pushed) although the batch holds one target; and
even with logging on, a broken-symlink target leaves the clipboard empty —
refuting the claim that the clipboard is replaced with one snapshot per target
regardless of the logging flag. -/
theorem removeAndYankClipboardDependsOnLogging :
    ((remove_and_yank envAll "1700000000" st0 [itemA] false).1.registered = []
      ∧ ([itemA] : List ItemInfo).length = 1)
    ∧ ((remove_and_yank envBroken "1700000000" st0 [linkBroken] true).1.registered = []
      ∧ ([linkBroken] : List ItemInfo).length = 1) := by
  decide

/-- C5 counterexample: yanking in select mode stores the clipboard items with
`selected = true` (the clone is pushed without resetting the flag), and a
logged delete of that selected item stores the snapshot verbatim — with
`selected = true` — inside the `Delete` record, refuting the claim that
items stored in the clipboard or in log records always have
`selected = false`. -/
theorem yankItemKeepsSelectedFlag :
    yank_item stSel 0 true = some { stSel with registered := [itemSel] }
    ∧ itemSel.selected = true
    ∧ (remove_and_yank envAll "1700000000" stSel [itemSel]
          true).1.manipulations.manip_list.getLast?
        = some (ManipKind.Delete
            { trash := [trashDir.joinName "1700000000_a.txt"],
              original := [itemSel], dir := destDir }) := by
  decide

/-- C2 (amended): the copy-to-trash step happens only when the logging flag is
true: for a logged delete of a non-broken-symlink target, the copy of the
source to the trash entry named by the timestamp and original name is the
first filesystem action attempted, and the source removal is attempted only
after that copy succeeded (a failed copy aborts with the copy error before the
source is touched); with the logging flag off the source is removed without a
trash copy, as the counterexample shows. -/
theorem removeYankFileLoggedCopyFirst (env : Env) (now : String) (s : State)
    (item : ItemInfo)
    (h : (item.file_type == FileType.Symlink && !env.pathExists item.file_path) = false) :
    (env.act (.copy item.file_path (s.trash_dir.joinName (now ++ "_" ++ item.file_name))) = false →
      remove_and_yank_file env now s item true =
        (s, [.copy item.file_path (s.trash_dir.joinName (now ++ "_" ++ item.file_name))],
         .error .fileCopyError))
    ∧ (env.act (.copy item.file_path (s.trash_dir.joinName (now ++ "_" ++ item.file_name))) = true →
      (remove_and_yank_file env now s item true).2.1 =
        [.copy item.file_path (s.trash_dir.joinName (now ++ "_" ++ item.file_name)),
         .removeFile item.file_path]) := by
  constructor <;> intro hc
  · simp only [remove_and_yank_file, h, Bool.false_eq_true, if_false, hc, Bool.not_false,
      if_true]
  · simp only [remove_and_yank_file, h, Bool.false_eq_true, if_false, hc, Bool.not_true]
    cases hrm : env.act (.removeFile item.file_path) <;> simp [hrm]

/-- Witness for C2 (amended): a logged delete of the plain file a.txt attempts
exactly the copy into the trash followed by the source removal. -/
theorem removeYankFileLoggedCopyFirstWitness :
    (remove_and_yank_file envAll "1700000000" st0 itemA true).2.1 =
      [.copy itemA.file_path (st0.trash_dir.joinName ("1700000000" ++ "_" ++ itemA.file_name)),
       .removeFile itemA.file_path] :=
  (removeYankFileLoggedCopyFirst envAll "1700000000" st0 itemA (by decide)).2 (by decide)

/-- Characterization of a successful `remove_and_yank_file` call: the state
gains exactly the expected clipboard entry (when logging) and the returned
path is the expected trash path. -/
theorem remove_and_yank_file_ok (env : Env) (now : String) (s : State) (item : ItemInfo)
    (b : Bool) (s' : State) (tr : List FsAction) (p : PathBuf)
    (hne : item.file_type ≠ FileType.Directory)
    (h : remove_and_yank_file env now s item b = (s', tr, .ok p)) :
    s' = { s with registered := s.registered ++
            (if b then (regEntry env now s.trash_dir item).toList else []) }
    ∧ (b = true → p = trashPathOf env now s.trash_dir item) := by
  cases hft : item.file_type with
  | Directory => exact absurd hft hne
  | File =>
    cases b with
    | false =>
      cases hrm : env.act (.removeFile item.file_path) <;>
        simp [remove_and_yank_file, hft, hrm] at h
      obtain ⟨h1, -, h2⟩ := h
      subst h1
      simp
    | true =>
      cases hcp : env.act (.copy item.file_path
          (s.trash_dir.joinName (now ++ "_" ++ item.file_name))) <;>
        simp [remove_and_yank_file, hft, hcp] at h
      cases hrm : env.act (.removeFile item.file_path) <;> simp [hrm] at h
      obtain ⟨h1, -, h2⟩ := h
      subst h1 h2
      simp [push_to_registered, regEntry, trashPathOf, hft]
  | Symlink =>
    cases hex : env.pathExists item.file_path with
    | false =>
      cases hcmd : env.act (.rmCmd item.file_path) <;>
        simp [remove_and_yank_file, hft, hex, hcmd] at h
      obtain ⟨h1, -, h2⟩ := h
      subst h1 h2
      refine ⟨by simp [regEntry, hft, hex], fun _ => by simp [trashPathOf, hft, hex]⟩
    | true =>
      cases b with
      | false =>
        cases hrm : env.act (.removeFile item.file_path) <;>
          simp [remove_and_yank_file, hft, hex, hrm] at h
        obtain ⟨h1, -, h2⟩ := h
        subst h1
        simp
      | true =>
        cases hcp : env.act (.copy item.file_path
            (s.trash_dir.joinName (now ++ "_" ++ item.file_name))) <;>
          simp [remove_and_yank_file, hft, hex, hcp] at h
        cases hrm : env.act (.removeFile item.file_path) <;> simp [hrm] at h
        obtain ⟨h1, -, h2⟩ := h
        subst h1 h2
        simp [push_to_registered, regEntry, trashPathOf, hft, hex]

/-- Characterization of a successful `remove_and_yank_dir` call, analogous to
the file case. -/
theorem remove_and_yank_dir_ok (env : Env) (now : String) (s : State) (item : ItemInfo)
    (b : Bool) (s' : State) (tr : List FsAction) (p : PathBuf)
    (hft : item.file_type = FileType.Directory)
    (h : remove_and_yank_dir env now s item b = (s', tr, .ok p)) :
    s' = { s with registered := s.registered ++
            (if b then (regEntry env now s.trash_dir item).toList else []) }
    ∧ (b = true → p = trashPathOf env now s.trash_dir item) := by
  cases b with
  | false =>
    cases hrm : env.act (.removeDirAll item.file_path) <;>
      simp [remove_and_yank_dir, hrm] at h
    obtain ⟨h1, -, h2⟩ := h
    subst h1; simp
  | true =>
    cases hw : env.walk item.file_path with
    | nil =>
      cases hrm : env.act (.removeDirAll item.file_path) <;>
        simp [remove_and_yank_dir, hw, hrm] at h
      obtain ⟨h1, -, h2⟩ := h
      subst h1 h2
      exact ⟨by simp [push_to_registered, regEntry, hft, hw],
             fun _ => by simp [trashPathOf, hft, hw]⟩
    | cons e0 rest =>
      cases hok : e0.ok <;> simp [remove_and_yank_dir, hw, hok] at h
      cases hu : e0.utf8 <;> simp [hu] at h
      cases hcd : env.act (.createDir (s.trash_dir.join
          (s.trash_dir.joinName (now ++ "_" ++ e0.path.lastComp.getD "")))) <;>
        simp [hcd] at h
      rcases hch : rayDirChildren env
          (s.trash_dir.joinName (now ++ "_" ++ e0.path.lastComp.getD ""))
          e0.path.iterCount rest with ⟨tr2, res⟩
      cases res <;> simp [hch] at h
      cases hrm : env.act (.removeDirAll item.file_path) <;> simp [hrm] at h
      obtain ⟨h1, -, h2⟩ := h
      subst h1 h2
      exact ⟨by simp [push_to_registered, regEntry, hft, hw],
             fun _ => by simp [trashPathOf, hft, hw]⟩

/-- Characterization of a successful per-target step of the batch loop. -/
theorem remove_and_yank_item_ok (env : Env) (now : String) (s : State) (item : ItemInfo)
    (b : Bool) (s' : State) (tr : List FsAction) (p : PathBuf)
    (h : (match item.file_type with
          | FileType.Directory => remove_and_yank_dir env now s item b
          | _ => remove_and_yank_file env now s item b) = (s', tr, .ok p)) :
    s' = { s with registered := s.registered ++
            (if b then (regEntry env now s.trash_dir item).toList else []) }
    ∧ (b = true → p = trashPathOf env now s.trash_dir item) := by
  cases hft : item.file_type with
  | Directory =>
    rw [hft] at h
    exact remove_and_yank_dir_ok env now s item b s' tr p hft h
  | File =>
    rw [hft] at h
    exact remove_and_yank_file_ok env now s item b s' tr p (by simp [hft]) h
  | Symlink =>
    rw [hft] at h
    exact remove_and_yank_file_ok env now s item b s' tr p (by simp [hft]) h

/-- A successful logged batch loop appends exactly one clipboard entry per
non-broken target and returns the per-target trash paths in order. -/
theorem rayLoop_logged_spec (env : Env) (now : String) :
    ∀ (targets : List ItemInfo) (s s' : State) (tr : List FsAction) (ps : List PathBuf),
      rayLoop env now true s targets = (s', tr, .ok ps) →
      s' = { s with registered := s.registered ++
               targets.filterMap (regEntry env now s.trash_dir) }
      ∧ ps = targets.map (trashPathOf env now s.trash_dir) := by
  intro targets
  induction targets with
  | nil =>
    intro s s' tr ps h
    simp [rayLoop] at h
    obtain ⟨h1, -, h2⟩ := h
    subst h1 h2
    simp
  | cons item rest ih =>
    intro s s' tr ps h
    simp only [rayLoop] at h
    split at h
    · simp at h
    · rename_i s1 tr1 p heq
      split at h
      · simp at h
      · rename_i s2 tr2 ps2 heq2
        simp only [Prod.mk.injEq, Except.ok.injEq] at h
        obtain ⟨hs, htr, hps⟩ := h
        obtain ⟨hs1, hp⟩ := remove_and_yank_item_ok env now s item true s1 tr1 p heq
        obtain ⟨hs2, hps2⟩ := ih s1 s2 tr2 ps2 heq2
        subst hs
        constructor
        · rw [hs2, hs1]
          simp only [if_true]
          cases hreg : regEntry env now s.trash_dir item <;>
            simp [hreg, List.filterMap_cons, List.append_assoc, hs1]
        · rw [← hps, hp rfl, hps2, hs1]
          simp

/-- An unlogged `remove_and_yank_file` call never changes the state. -/
theorem remove_and_yank_file_unlogged (env : Env) (now : String) (s : State)
    (item : ItemInfo) : (remove_and_yank_file env now s item false).1 = s := by
  unfold remove_and_yank_file
  simp only [Bool.false_eq_true, if_false]
  split <;> split <;> rfl

/-- An unlogged `remove_and_yank_dir` call never changes the state. -/
theorem remove_and_yank_dir_unlogged (env : Env) (now : String) (s : State)
    (item : ItemInfo) : (remove_and_yank_dir env now s item false).1 = s := by
  unfold remove_and_yank_dir
  simp only [Bool.false_eq_true, if_false]
  split <;> rfl

/-- An unlogged batch loop never changes the state. -/
theorem rayLoop_unlogged_state (env : Env) (now : String) :
    ∀ (targets : List ItemInfo) (s : State), (rayLoop env now false s targets).1 = s := by
  intro targets
  induction targets with
  | nil => intro s; rfl
  | cons item rest ih =>
    intro s
    simp only [rayLoop]
    rcases hr : (match item.file_type with
      | FileType.Directory => remove_and_yank_dir env now s item false
      | _ => remove_and_yank_file env now s item false) with ⟨s1, tr1, res1⟩
    have hs1 : s1 = s := by
      have hx : (match item.file_type with
          | FileType.Directory => remove_and_yank_dir env now s item false
          | _ => remove_and_yank_file env now s item false).1 = s := by
        cases item.file_type <;>
          simp [remove_and_yank_dir_unlogged, remove_and_yank_file_unlogged]
      rw [hr] at hx
      exact hx
    rw [hr]
    subst hs1
    cases res1 with
    | error e => rfl
    | ok p =>
      rcases hrec : rayLoop env now false s1 rest with ⟨s2, tr2, res2⟩
      have hs2 : s2 = s1 := by
        have hx := ih s1
        rw [hrec] at hx
        exact hx
      cases res2 <;> simp [hrec, hs2]

/-- Discarding the redoable tail leaves the clipboard untouched. -/
theorem branch_manip_registered (s : State) :
    (branch_manip s).registered = s.registered := by
  unfold branch_manip
  split <;> rfl

/-- C3 (amended): on a successful `remove_and_yank` call the clipboard ends up
empty when the logging flag is false (it is merely cleared), and when the flag
is true it holds exactly one entry per non-broken-symlink target — each the
pre-deletion snapshot with file path and name replaced by the trash location —
rather than one entry per target regardless of the flag. -/
theorem removeAndYankClipboardContents (env : Env) (now : String) (s : State)
    (targets : List ItemInfo) :
    (∀ s' tr, remove_and_yank env now s targets false = (s', tr, .ok ()) →
        s'.registered = [])
    ∧ (∀ s' tr, remove_and_yank env now s targets true = (s', tr, .ok ()) →
        s'.registered = targets.filterMap (regEntry env now s.trash_dir)) := by
  constructor
  · intro s' tr h
    unfold remove_and_yank at h
    rcases hloop : rayLoop env now false { s with registered := [] } targets
      with ⟨s1, tr1, res1⟩
    cases res1 with
    | error e => simp [hloop] at h
    | ok ps =>
      simp only [hloop, Bool.false_eq_true, if_false, Prod.mk.injEq] at h
      obtain ⟨hs, -⟩ := h
      have hx := rayLoop_unlogged_state env now targets { s with registered := [] }
      rw [hloop] at hx
      have hx1 : s1 = { s with registered := [] } := hx
      rw [← hs, hx1]
  · intro s' tr h
    unfold remove_and_yank at h
    rcases hloop : rayLoop env now true { s with registered := [] } targets
      with ⟨s1, tr1, res1⟩
    cases res1 with
    | error e => simp [hloop] at h
    | ok ps =>
      simp only [hloop, if_true, Prod.mk.injEq] at h
      obtain ⟨hs, -⟩ := h
      obtain ⟨hs1, -⟩ := rayLoop_logged_spec env now targets _ _ _ _ hloop
      rw [← hs]
      simp only [branch_manip_registered]
      rw [hs1]
      simp

/-- Witness for C3 (amended): the logged delete of a.txt replaces the
clipboard with the computed per-target entries. -/
theorem removeAndYankClipboardContentsWitness :
    (remove_and_yank envAll "1700000000" st0 [itemA] true).1.registered =
      [itemA].filterMap (regEntry envAll "1700000000" st0.trash_dir) :=
  (removeAndYankClipboardContents envAll "1700000000" st0 [itemA]).2
    (remove_and_yank envAll "1700000000" st0 [itemA] true).1
    (remove_and_yank envAll "1700000000" st0 [itemA] true).2.1 (by rfl)

/-- Every clipboard entry produced by the delete path has its selected flag
cleared. -/
theorem regEntry_selected (env : Env) (now : String) (trash : PathBuf) (item x : ItemInfo)
    (h : regEntry env now trash item = some x) : x.selected = false := by
  unfold regEntry at h
  split at h
  · split at h <;> (injection h with h; subst h; rfl)
  · split at h
    · simp at h
    · injection h with h; subst h; rfl

/-- C5 (amended): every item the delete path stores in the clipboard has
`selected = false` (the claim fails for yank and for the snapshots stored in
log records, which keep the incoming flag — see the counterexample). -/
theorem deleteClipboardSelectedFalse (env : Env) (now : String) (s : State)
    (targets : List ItemInfo) (new_manip : Bool) :
    ∀ s' tr, remove_and_yank env now s targets new_manip = (s', tr, .ok ()) →
      ∀ x ∈ s'.registered, x.selected = false := by
  intro s' tr h x hx
  cases new_manip with
  | false =>
    unfold remove_and_yank at h
    rcases hloop : rayLoop env now false { s with registered := [] } targets
      with ⟨s1, tr1, res1⟩
    cases res1 with
    | error e => simp [hloop] at h
    | ok ps =>
      simp only [hloop, Bool.false_eq_true, if_false, Prod.mk.injEq] at h
      obtain ⟨hs, -⟩ := h
      have hx0 := rayLoop_unlogged_state env now targets { s with registered := [] }
      rw [hloop] at hx0
      have hx1 : s1 = { s with registered := [] } := hx0
      rw [← hs, hx1] at hx
      simp at hx
  | true =>
    unfold remove_and_yank at h
    rcases hloop : rayLoop env now true { s with registered := [] } targets
      with ⟨s1, tr1, res1⟩
    cases res1 with
    | error e => simp [hloop] at h
    | ok ps =>
      simp only [hloop, if_true, Prod.mk.injEq] at h
      obtain ⟨hs, -⟩ := h
      obtain ⟨hs1, -⟩ := rayLoop_logged_spec env now targets _ _ _ _ hloop
      rw [← hs] at hx
      simp only [branch_manip_registered] at hx
      rw [hs1] at hx
      simp only [List.nil_append, List.mem_filterMap] at hx
      obtain ⟨a, -, ha⟩ := hx
      exact regEntry_selected env now _ a x ha

/-- Witness for C5 (amended): the clipboard entry produced by the logged
delete of the selected item has its selected flag cleared. -/
theorem deleteClipboardSelectedFalseWitness :
    itemSelTrashed.selected = false :=
  deleteClipboardSelectedFalse envAll "1700000000" stSel [itemSel] true
    (remove_and_yank envAll "1700000000" stSel [itemSel] true).1
    (remove_and_yank envAll "1700000000" stSel [itemSel] true).2.1 (by rfl)
    _ (by decide)

/-- A broken symlink processed by a successful logged batch leaves the `rm`
invocation in the action trace. -/
theorem rayLoop_broken_symlink_trace (env : Env) (now : String) :
    ∀ (targets : List ItemInfo) (s s' : State) (tr : List FsAction)
      (ps : List PathBuf) (i : Nat) (item : ItemInfo),
      rayLoop env now true s targets = (s', tr, .ok ps) →
      targets.get? i = some item →
      item.file_type = FileType.Symlink → env.pathExists item.file_path = false →
      FsAction.rmCmd item.file_path ∈ tr := by
  intro targets
  induction targets with
  | nil => intro s s' tr ps i item h hi hsym hex; simp at hi
  | cons hd rest ih =>
    intro s s' tr ps i item h hi hsym hex
    simp only [rayLoop] at h
    split at h
    · simp at h
    · rename_i s1 tr1 p heq
      split at h
      · simp at h
      · rename_i s2 tr2 ps2 heq2
        simp only [Prod.mk.injEq, Except.ok.injEq] at h
        obtain ⟨hs, htr, hps⟩ := h
        subst htr
        cases i with
        | zero =>
          simp only [List.get?_cons_zero, Option.some.injEq] at hi
          subst hi
          cases hcmd : env.act (.rmCmd hd.file_path) with
          | false => simp [remove_and_yank_file, hsym, hex, hcmd] at heq
          | true =>
            simp only [remove_and_yank_file, hsym, hex, hcmd, beq_self_eq_true,
              Bool.not_false, Bool.and_self, if_true, Prod.mk.injEq] at heq
            obtain ⟨-, htr1, -⟩ := heq
            rw [← htr1]
            exact List.mem_append_left _ (List.mem_singleton_self _)
        | succ n =>
          simp only [List.get?_cons_succ] at hi
          exact List.mem_append_right tr1 (ih s1 s2 tr2 ps2 n item heq2 hi hsym hex)

/-- C10: a broken-symlink target of a successful logged delete batch is
unlinked via the `rm` command (its invocation appears in the action trace) and
the empty path is recorded at its position in the `Delete` record's trash
list, whose length matches the batch and whose snapshots are the targets — so
that record holds no real trash entry for the symlink. -/
theorem brokenSymlinkEmptyTrashEntry (env : Env) (now : String) (s : State)
    (targets : List ItemInfo) (i : Nat) (item : ItemInfo)
    (hi : targets.get? i = some item)
    (hsym : item.file_type = FileType.Symlink)
    (hex : env.pathExists item.file_path = false) :
    ∀ s' tr, remove_and_yank env now s targets true = (s', tr, .ok ()) →
      FsAction.rmCmd item.file_path ∈ tr
      ∧ ∃ d : DeletedFiles,
          s'.manipulations.manip_list.getLast? = some (ManipKind.Delete d)
          ∧ d.trash.get? i = some PathBuf.new
          ∧ d.trash.length = targets.length
          ∧ d.original = targets := by
  intro s' tr h
  unfold remove_and_yank at h
  rcases hloop : rayLoop env now true { s with registered := [] } targets
    with ⟨s1, tr1, res1⟩
  cases res1 with
  | error e => simp [hloop] at h
  | ok ps =>
    simp only [hloop, if_true, Prod.mk.injEq] at h
    obtain ⟨hs, htr, -⟩ := h
    obtain ⟨-, hps⟩ := rayLoop_logged_spec env now targets _ _ _ _ hloop
    constructor
    · rw [← htr]
      exact rayLoop_broken_symlink_trace env now targets _ _ _ _ i item hloop hi hsym hex
    · refine ⟨{ trash := ps, original := targets, dir := s1.current_dir }, ?_, ?_, ?_, rfl⟩
      · rw [← hs]
        simp [List.getLast?_concat]
      · rw [hps]
        rw [List.get?_map, hi]
        simp [trashPathOf, hsym, hex]
      · rw [hps]
        simp

/-- Witness for C10: the broken symlink batch leaves the `rm` invocation in
the trace of the concrete run. -/
theorem brokenSymlinkEmptyTrashEntryWitness :
    FsAction.rmCmd linkBroken.file_path ∈
      (remove_and_yank envBroken "1700000000" st0 [linkBroken] true).2.1 :=
  (brokenSymlinkEmptyTrashEntry envBroken "1700000000" st0 [linkBroken] 0 linkBroken
      (by decide) (by decide) (by decide)
      (remove_and_yank envBroken "1700000000" st0 [linkBroken] true).1
      (remove_and_yank envBroken "1700000000" st0 [linkBroken] true).2.1 (by rfl)).1

/-- Popping `n` elements drops exactly the last `n` when `n` is within
bounds. -/
theorem popN_eq_take {α : Type} :
    ∀ (n : Nat) (l : List α), n ≤ l.length → popN l n = l.take (l.length - n) := by
  intro n
  induction n with
  | zero => intro l h; simp [popN]
  | succ n ih =>
    intro l h
    simp only [popN]
    rw [ih l.dropLast (by simp [List.length_dropLast]; omega)]
    rw [List.dropLast_eq_take, List.take_take]
    congr 1
    simp only [List.length_take]
    omega

/-- C8: appending a record through a logged delete or a logged paste while
`redoPointer > 0` (and within bounds) first drops exactly the last
`redoPointer` records, then pushes the one new record, and leaves
`redoPointer = 0`, so `0 ≤ redoPointer ≤ length` holds afterwards. -/
theorem appendTruncatesRedoTail (env : Env) (now : String) (s : State)
    (targets : List ItemInfo)
    (h0 : 0 < s.manipulations.count)
    (h1 : s.manipulations.count ≤ s.manipulations.manip_list.length) :
    (∀ s' tr, remove_and_yank env now s targets true = (s', tr, .ok ()) →
       ∃ d : DeletedFiles, d.original = targets ∧
         s'.manipulations.manip_list =
           s.manipulations.manip_list.take
             (s.manipulations.manip_list.length - s.manipulations.count)
           ++ [ManipKind.Delete d]
         ∧ s'.manipulations.count = 0
         ∧ s'.manipulations.count ≤ s'.manipulations.manip_list.length)
    ∧ (∀ s', put_items env s targets none = .ok s' →
       ∃ pf : PutFiles, pf.original = targets ∧
         s'.manipulations.manip_list =
           s.manipulations.manip_list.take
             (s.manipulations.manip_list.length - s.manipulations.count)
           ++ [ManipKind.Put pf]
         ∧ s'.manipulations.count = 0
         ∧ s'.manipulations.count ≤ s'.manipulations.manip_list.length) := by
  have hbm : ∀ st : State, st.manipulations = s.manipulations →
      (branch_manip st).manipulations.manip_list =
        s.manipulations.manip_list.take
          (s.manipulations.manip_list.length - s.manipulations.count) := by
    intro st hst
    unfold branch_manip
    rw [hst, if_neg (by omega)]
    exact popN_eq_take _ _ h1
  constructor
  · intro s' tr h
    unfold remove_and_yank at h
    rcases hloop : rayLoop env now true { s with registered := [] } targets
      with ⟨s1, tr1, res1⟩
    cases res1 with
    | error e => simp [hloop] at h
    | ok ps =>
      simp only [hloop, if_true, Prod.mk.injEq] at h
      obtain ⟨hs, -⟩ := h
      obtain ⟨hs1, -⟩ := rayLoop_logged_spec env now targets _ _ _ _ hloop
      have hman : s1.manipulations = s.manipulations := by rw [hs1]
      refine ⟨{ trash := ps, original := targets, dir := s1.current_dir }, rfl, ?_, ?_, ?_⟩
      · rw [← hs]
        show (branch_manip s1).manipulations.manip_list ++ _ = _
        rw [hbm s1 hman]
      · rw [← hs]
      · rw [← hs]
        simp
  · intro s' h
    unfold put_items at h
    simp only [Option.isNone_none, if_true, Except.ok.injEq] at h
    refine ⟨{ original := targets,
              put := (putLoop env s none targets (s.list.map (·.file_name)) []).1,
              dir := s.current_dir }, rfl, ?_, ?_, ?_⟩
    · rw [← h]
      show (branch_manip s).manipulations.manip_list ++ _ = _
      rw [hbm s rfl]
    · rw [← h]
    · rw [← h]
      simp

/-- Witness for C8: a logged delete on a state with one undone record and two
logged records truncates the tail and resets the undo count. -/
theorem appendTruncatesRedoTailWitness :
    (remove_and_yank envAll "1700000000" stUndone [itemA] true).1.manipulations.count = 0
    ∧ (remove_and_yank envAll "1700000000" stUndone [itemA] true).1.manipulations.count ≤
        (remove_and_yank envAll "1700000000" stUndone [itemA]
          true).1.manipulations.manip_list.length := by
  obtain ⟨d, -, -, hc, hle⟩ :=
    (appendTruncatesRedoTail envAll "1700000000" stUndone [itemA] (by decide) (by decide)).1
      (remove_and_yank envAll "1700000000" stUndone [itemA] true).1
      (remove_and_yank envAll "1700000000" stUndone [itemA] true).2.1 (by rfl)
  exact ⟨hc, hle⟩

/-- The fueled disambiguation always returns the stem followed by some
suffix. -/
theorem resolveGo_toList (name : String) (set : List String) :
    ∀ (fuel k : Nat), ∃ t, (resolveGo name set fuel k).toList = name.toList ++ t := by
  intro fuel
  induction fuel with
  | zero =>
    intro k
    exact ⟨"_".toList ++ (toString k).toList,
      by simp [resolveGo, String.toList, String.data_append, List.append_assoc]⟩
  | succ fuel ih =>
    intro k
    simp only [resolveGo]
    split
    · exact ih (k + 1)
    · exact ⟨"_".toList ++ (toString k).toList,
        by simp [String.toList, String.data_append, List.append_assoc]⟩

/-- The resolved name always begins with the candidate name. -/
theorem resolveName_keeps_given (name : String) (set : List String) :
    name.toList.isPrefixOf (resolveName name set).toList = true := by
  rw [List.isPrefixOf_iff_prefix]
  unfold resolveName
  split
  · obtain ⟨t, ht⟩ := resolveGo_toList name set (set.length + 1) 1
    rw [ht]
    exact List.prefix_append _ _
  · exact List.prefix_rfl

/-- C7: for a trash-origin item (its path's parent is the trash directory),
`put_file` strips the fixed 11-character timestamp prefix from the stored name
before collision resolution — the produced file name is exactly the collision
resolution of the stripped name over the incoming set, and it begins with the
stripped name — and `put_dir` likewise strips the prefix, the created
directory's name being the stripped name itself. -/
theorem trashOriginTimestampStripped (env : Env) (s : State) (item : ItemInfo)
    (td : Option PathBuf) (set : List String)
    (h : item.file_path.parent = some s.trash_dir) :
    (∀ set' p, put_file env s item td set = (set', .ok p) →
       p.lastComp = some (resolveName (strip11 item.file_name) set)
       ∧ (strip11 item.file_name).toList.isPrefixOf
           (resolveName (strip11 item.file_name) set).toList = true)
    ∧ (∀ e0 rest set' p, env.walk item.file_path = e0 :: rest →
        put_dir env s item td set = (set', .ok p) →
        p.lastComp = some (strip11 item.file_name)) := by
  constructor
  · intro set' p hpf
    unfold put_file at hpf
    split at hpf <;> rw [if_pos h] at hpf <;> simp only [] at hpf <;> split at hpf
    · simp only [Prod.mk.injEq, Except.ok.injEq] at hpf
      obtain ⟨-, hp⟩ := hpf
      subst hp
      exact ⟨by simp [PathBuf.joinName, PathBuf.lastComp, rename_file, List.getLast?_concat],
             resolveName_keeps_given _ _⟩
    · simp at hpf
    · simp only [Prod.mk.injEq, Except.ok.injEq] at hpf
      obtain ⟨-, hp⟩ := hpf
      subst hp
      exact ⟨by simp [PathBuf.joinName, PathBuf.lastComp, rename_file, List.getLast?_concat],
             resolveName_keeps_given _ _⟩
    · simp at hpf
  · intro e0 rest set' p hw hpd
    unfold put_dir at hpd
    rw [hw] at hpd
    cases hok : e0.ok with
    | false => simp [hok] at hpd
    | true =>
      simp only [hok, Bool.not_true, Bool.false_eq_true, if_false] at hpd
      rw [h] at hpd
      simp only [] at hpd
      simp only [if_true] at hpd
      split at hpd
      · split at hpd
        · simp only [Prod.mk.injEq, Except.ok.injEq] at hpd
          obtain ⟨-, hp⟩ := hpd
          subst hp
          cases td <;> simp [PathBuf.joinName, PathBuf.lastComp, List.getLast?_concat]
        · simp at hpd
      · simp at hpd

/-- Witness for C7: restoring the trashed file 1700000000_report.txt into a
destination already holding report.txt yields the disambiguated name, which
begins with report.txt. -/
theorem trashOriginTimestampStrippedWitness :
    (destDir.joinName "report.txt_1").lastComp =
      some (resolveName (strip11 reportTrashItem.file_name) ["report.txt"])
    ∧ (strip11 reportTrashItem.file_name).toList.isPrefixOf
        (resolveName (strip11 reportTrashItem.file_name) ["report.txt"]).toList = true :=
  (trashOriginTimestampStripped envAll st0 reportTrashItem none ["report.txt"]
      (by decide)).1 ("report.txt_1" :: ["report.txt"]) (destDir.joinName "report.txt_1")
      (by decide)

/-- Membership is preserved by sorted insertion. -/
theorem mem_insertSorted {α : Type} (le : α → α → Bool) (a x : α) :
    ∀ l : List α, x ∈ insertSorted le a l ↔ x = a ∨ x ∈ l := by
  intro l
  induction l with
  | nil => simp [insertSorted]
  | cons b l ih =>
    simp only [insertSorted]
    split
    · simp [List.mem_cons]
    · simp only [List.mem_cons, ih]
      tauto

/-- Membership is preserved by the stable sort. -/
theorem mem_stableSort {α : Type} (le : α → α → Bool) :
    ∀ (l : List α) (x : α), x ∈ stableSort le l ↔ x ∈ l := by
  intro l
  induction l with
  | nil => intro x; simp [stableSort]
  | cons a l ih =>
    intro x
    simp only [stableSort, mem_insertSorted, List.mem_cons, ih]

/-- C9: a successful `push_items` listing equals the spec's description —
partition into directories and files-or-symlinks, sort each part by the key,
concatenate directories first, and filter hidden entries after sorting — and
the result decomposes as a block of directories followed by a block of
non-directories, so every directory item precedes every file or symlink
item. -/
theorem pushItemsMatchesSpecDirsFirst (env : Env) (p : PathBuf) (key : SortKey)
    (sh : Bool) (items : List ItemInfo)
    (h : push_items env p key sh = .ok items) :
    listSpec env p key sh = some items
    ∧ ∃ d f, items = d ++ f
        ∧ (∀ x ∈ d, x.file_type = FileType.Directory)
        ∧ (∀ x ∈ f, x.file_type ≠ FileType.Directory) := by
  unfold push_items at h
  cases hrd : env.readDir p with
  | none => rw [hrd] at h; simp at h
  | some raw =>
    rw [hrd] at h
    simp only [] at h
    cases hce : collectEntries raw with
    | none => rw [hce] at h; simp at h
    | some entries =>
      rw [hce] at h
      simp only [Except.ok.injEq] at h
      have hpart : ((entries.map make_item).partition
          (fun i => i.file_type == FileType.Directory)).1 =
            (entries.map make_item).filter (fun i => i.file_type == FileType.Directory) := by
        rw [List.partition_eq_filter_filter]
      have hpart2 : ((entries.map make_item).partition
          (fun i => i.file_type == FileType.Directory)).2 =
            (entries.map make_item).filter
              (fun i => i.file_type == FileType.File || i.file_type == FileType.Symlink) := by
        rw [List.partition_eq_filter_filter]
        apply List.filter_congr
        intro x _
        cases hxt : x.file_type <;> simp [Function.comp, hxt]
      constructor
      · unfold listSpec
        rw [hrd]
        simp only []
        rw [hce]
        simp only []
        rw [← h, hpart, hpart2]
      · rw [← h, hpart, hpart2]
        cases sh with
        | true =>
          simp only [if_true]
          refine ⟨_, _, rfl, ?_, ?_⟩
          · intro x hx
            rw [mem_stableSort] at hx
            have hfx := List.of_mem_filter hx
            simpa using hfx
          · intro x hx
            rw [mem_stableSort] at hx
            have hfx := List.of_mem_filter hx
            intro hd
            rw [hd] at hfx
            simp at hfx
        | false =>
          simp only [Bool.false_eq_true, if_false, List.filter_append]
          refine ⟨_, _, rfl, ?_, ?_⟩
          · intro x hx
            have hx2 := List.mem_of_mem_filter hx
            rw [mem_stableSort] at hx2
            have hfx := List.of_mem_filter hx2
            simpa using hfx
          · intro x hx
            have hx2 := List.mem_of_mem_filter hx
            rw [mem_stableSort] at hx2
            have hfx := List.of_mem_filter hx2
            intro hd
            rw [hd] at hfx
            simp at hfx

/-- Witness for C9: listing /home/work (holding b.txt, sub and the hidden
.git) by name without hidden entries matches the spec-side description on the
concrete output. -/
theorem pushItemsMatchesSpecDirsFirstWitness :
    listSpec envList ⟨true, ["home", "work"]⟩ .Name false = some [itemSub, itemBList] :=
  (pushItemsMatchesSpecDirsFirst envList ⟨true, ["home", "work"]⟩ .Name false
      [itemSub, itemBList] (by decide)).1

end Fx
